import Mathlib

/-!
Verification of the Debaite debate-orchestration engine.

This file gives a shallow embedding, in Lean 4, of the control logic of the
debate engine found under `backend/debates/`:

* the Position-Change Evaluator (`Participant.check_change_position`,
  `Debate._check_positions`),
* the Outcome Aggregator (`Debate._evaluate`,
  `Participant.evaluate_debate_performance`),
* history compression (`Debate._summarize_history`, `Debate._record_intervention`),
* the Moderator Policy downgrade chain (`Moderator.decide_intervention`),
* answer generation limits and answer extraction (`Participant.answer`,
  the corresponding block of `Debate.run_generator`),
* the step driver (`Debate.step`).

Python floats are modelled as rationals (ℚ): every float operation appearing
in the modelled code (addition, multiplication, comparison, `max`/`min`) is
exact on the values the program manipulates, so no rounding behaviour is
relevant to the properties proved here.  External LLM calls are modelled as
oracle inputs (`Option` values: `none` is a raised exception / unparseable
output).  Python string operations used by the code (`split`, `replace`,
`strip`, `lower`, the `in` operator) are modelled on `List Char` by
executable functions defined below.
-/

/-! ## Python string primitives -/

/-- Python's default `str.strip()` whitespace set (ASCII part). -/
def pyIsSpace (c : Char) : Bool :=
  c = ' ' || c = '\t' || c = '\n' || c = '\r' || c = '\x0b' || c = '\x0c'

/-- Python `str.strip()` on the underlying character list. -/
def pyStripList (s : List Char) : List Char :=
  ((s.dropWhile pyIsSpace).reverse.dropWhile pyIsSpace).reverse

/-- Python `str.strip()`. -/
def pyStrip (s : String) : String :=
  ⟨pyStripList s.data⟩

/-- Python `str.lower()` (ASCII case folding, which is all the modelled code needs). -/
def pyLower (s : String) : String :=
  ⟨s.data.map Char.toLower⟩

/-- Does `sub` occur as a contiguous run inside `s`?  Model of Python's `in`
operator on strings. -/
def listContainsSub (sub : List Char) : List Char → Bool
  | [] => sub.isEmpty
  | c :: rest => sub.isPrefixOf (c :: rest) || listContainsSub sub rest

/-- Python `sub in s` for strings. -/
def pyContains (s sub : String) : Bool :=
  listContainsSub sub.data s.data

/-- Fuel-driven worker for Python `str.split(sep)` (non-empty `sep`): scan left
to right, cutting at each non-overlapping occurrence of `sep`.  The fuel is
only a termination device; `pySplitList` always supplies enough. -/
def pySplitAux (sep : List Char) : Nat → List Char → List (List Char)
  | 0, s => [s]
  | fuel + 1, s =>
    if sep ≠ [] ∧ sep.isPrefixOf s then
      [] :: pySplitAux sep fuel (s.drop sep.length)
    else
      match s with
      | [] => [[]]
      | c :: rest =>
        match pySplitAux sep fuel rest with
        | [] => [[c]]
        | t :: ts => (c :: t) :: ts

/-- Python `s.split(sep)` on character lists (for non-empty `sep`). -/
def pySplitList (sep s : List Char) : List (List Char) :=
  pySplitAux sep (s.length + 1) s

/-- Python `s.split(sep)` for strings. -/
def pySplit (sep s : String) : List String :=
  (pySplitList sep.data s.data).map fun l => ⟨l⟩

/-- Join pieces with a separator between consecutive pieces (Python
`sep.join(parts)`). -/
def joinWith (sep : List Char) : List (List Char) → List Char
  | [] => []
  | [x] => x
  | x :: y :: rest => x ++ sep ++ joinWith sep (y :: rest)

/-- Python `s.replace(pat, repl)` (every non-overlapping occurrence, left to
right): split at `pat` and rejoin with `repl`. -/
def pyReplace (s pat repl : String) : String :=
  ⟨joinWith repl.data (pySplitList pat.data s.data)⟩

/-- Python truthiness of an `Optional[str]`. -/
def pyTruthy : Option String → Bool
  | none => false
  | some s => s ≠ ""

/-! ## Data model: participants (fields used by the Position-Change Evaluator)

`PState` carries the `Participant` fields read or written by
`check_change_position`: its identity, its positions, its confidence and the
confidence history, and its mindset.  The free-text `reasoning` of
`PositionChangeCheck` is only logged by the engine and is not modelled. -/

inductive MindsetType
  | openMinded
  | closeMinded
  | neutral
  deriving DecidableEq

structure PState where
  name : String
  originalPosition : Option String
  finalPosition : Option String
  confidenceScore : ℚ
  confidenceHistory : List ℚ
  mindset : MindsetType
  deriving DecidableEq

/-- `Participant.current_position`: `final_position` if truthy, else
`original_position` if truthy, else `"Undecided"`. -/
def currentPosition (p : PState) : String :=
  let pos : Option String :=
    if pyTruthy p.finalPosition then p.finalPosition else p.originalPosition
  match pos with
  | some s => if s = "" then "Undecided" else s
  | none => "Undecided"

/-- Result of `check_change_position` (the `PositionChangeCheck` pydantic model,
without the purely informational `reasoning` text). -/
structure PositionChangeCheck where
  hasChanged : Bool
  newPosition : String
  deriving DecidableEq

/-- Position-change configuration: the four environment values read by
`check_change_position` (`OPEN_MINDED_IMPACT_MULTIPLIER`,
`CLOSE_MINDED_IMPACT_MULTIPLIER`, `CONFIDENCE_FLIP_THRESHOLD`,
`CONFIDENCE_AFTER_FLIP`; defaults 1.2, 0.8, 0.3, 0.6). -/
structure PCConfig where
  openMindedMult : ℚ
  closeMindedMult : ℚ
  flipThreshold : ℚ
  postFlipConf : ℚ
  deriving DecidableEq

/-- The default configuration values hard-coded as fallbacks in the source. -/
def defaultPCConfig : PCConfig :=
  ⟨12 / 10, 8 / 10, 3 / 10, 6 / 10⟩

/-- The mindset impact modifier chosen by `check_change_position`. -/
def mindsetModifier (cfg : PCConfig) : MindsetType → ℚ
  | MindsetType.openMinded => cfg.openMindedMult
  | MindsetType.closeMinded => cfg.closeMindedMult
  | MindsetType.neutral => 1

/-- Negative deltas are scaled by the mindset modifier; positive deltas are
passed through (`if delta < 0: delta *= modifier`). -/
def scaledDelta (cfg : PCConfig) (m : MindsetType) (rawDelta : ℚ) : ℚ :=
  if rawDelta < 0 then rawDelta * mindsetModifier cfg m else rawDelta

/-- `max(0.0, min(1.0, x))`. -/
def clamp01 (x : ℚ) : ℚ :=
  max 0 (min 1 x)

/-- The post-flip confidence actually used: the configured value, adjusted to
`min(1.0, flip_threshold + 0.15)` when it does not exceed the flip
threshold. -/
def effectivePostFlip (cfg : PCConfig) : ℚ :=
  if cfg.postFlipConf ≤ cfg.flipThreshold then
    min 1 (cfg.flipThreshold + 15 / 100)
  else cfg.postFlipConf

/-- The confidence assignment performed after the parsed delta is applied:
`self.confidence_score = new_confidence; self.confidence_history.append(...)`. -/
def confUpdate (c : ℚ) (p : PState) : PState :=
  { p with confidenceScore := c, confidenceHistory := p.confidenceHistory ++ [c] }

/-- The flip assignments: `self.final_position = new_pos;
self.confidence_score = post_flip_conf; self.confidence_history.append(...)`. -/
def applyFlip (postFlip : ℚ) (newPos : String) (p : PState) : PState :=
  { p with finalPosition := some newPos,
           confidenceScore := postFlip,
           confidenceHistory := p.confidenceHistory ++ [postFlip] }

/-- `Participant.check_change_position`.  Oracle inputs model the external
calls: `firstCall` is the parsed `DELTA` value of the first LLM call (`none`
when that call raised, in which case the `except` branch returns an unchanged
participant; an unparseable response parses as delta `0.0` and is therefore a
`some 0` here); `pickCall` is the raw response of the position-pick call made
when several alternatives exist (`none` when it raised — the confidence
update has already been assigned at that point); `randomPick` selects the
`random.choice` fallback index. -/
def checkChangePosition (cfg : PCConfig) (allowedPositions : List String)
    (firstCall : Option ℚ) (pickCall : Option String) (randomPick : Nat)
    (p : PState) : PState × PositionChangeCheck :=
  match firstCall with
  | none => (p, ⟨false, currentPosition p⟩)
  | some rawDelta =>
    let newConfidence := clamp01 (p.confidenceScore + scaledDelta cfg p.mindset rawDelta)
    let p1 := confUpdate newConfidence p
    if newConfidence < cfg.flipThreshold then
      match allowedPositions.filter (fun pos => pos ≠ currentPosition p1) with
      | [] => (p1, ⟨false, currentPosition p1⟩)
      | [alt] => (applyFlip (effectivePostFlip cfg) alt p1, ⟨true, alt⟩)
      | alt1 :: alt2 :: alts =>
        match pickCall with
        | none => (p1, ⟨false, currentPosition p1⟩)
        | some choiceText =>
          let candidate := pyStrip choiceText
          let allAlts := alt1 :: alt2 :: alts
          match allAlts.find? (fun pos => pyContains (pyLower candidate) (pyLower pos)) with
          | some pos => (applyFlip (effectivePostFlip cfg) pos p1, ⟨true, pos⟩)
          | none =>
            let pos := allAlts.getD (randomPick % allAlts.length) ""
            (applyFlip (effectivePostFlip cfg) pos p1, ⟨true, pos⟩)
    else (p1, ⟨false, currentPosition p1⟩)

/-- One entry of `Debate.position_changes_log` (`PositionChangeEntry`). -/
structure PositionChangeEntry where
  name : String
  fromPosition : String
  toPosition : String
  roundWhenChanged : Nat
  deriving DecidableEq

/-- The body of `Debate._check_positions` for a single non-vetoed participant:
remember the old position, run `check_change_position`, and append a
`PositionChangeEntry` when it reports a flip. -/
def checkPositionsOne (cfg : PCConfig) (allowedPositions : List String)
    (firstCall : Option ℚ) (pickCall : Option String) (randomPick : Nat)
    (roundNum : Nat) (p : PState) (log : List PositionChangeEntry) :
    PState × List PositionChangeEntry :=
  let oldPos := currentPosition p
  let res := checkChangePosition cfg allowedPositions firstCall pickCall randomPick p
  if res.2.hasChanged then
    (res.1, log ++ [⟨p.name, oldPos, res.2.newPosition, roundNum⟩])
  else (res.1, log)

/-- The initial confidence drawn in `Debate._generate_base_profile`:
`random.uniform(0.6, 1.0)`, modelled as `0.6 + u * (1.0 - 0.6)` for a unit
random sample `u`. -/
def baseProfileConfidence (u : ℚ) : ℚ :=
  6 / 10 + u * (1 - 6 / 10)

/-! ## Facts about the Position-Change Evaluator (claims C1 and C5) -/

@[simp] lemma confUpdate_confidenceScore (c : ℚ) (p : PState) :
    (confUpdate c p).confidenceScore = c := rfl

@[simp] lemma confUpdate_confidenceHistory (c : ℚ) (p : PState) :
    (confUpdate c p).confidenceHistory = p.confidenceHistory ++ [c] := rfl

@[simp] lemma applyFlip_confidenceScore (pf : ℚ) (pos : String) (p : PState) :
    (applyFlip pf pos p).confidenceScore = pf := rfl

@[simp] lemma applyFlip_confidenceHistory (pf : ℚ) (pos : String) (p : PState) :
    (applyFlip pf pos p).confidenceHistory = p.confidenceHistory ++ [pf] := rfl

@[simp] lemma applyFlip_finalPosition (pf : ℚ) (pos : String) (p : PState) :
    (applyFlip pf pos p).finalPosition = some pos := rfl

@[simp] lemma currentPosition_confUpdate (c : ℚ) (p : PState) :
    currentPosition (confUpdate c p) = currentPosition p := rfl

lemma clamp01_nonneg (x : ℚ) : 0 ≤ clamp01 x := le_max_left 0 _

lemma clamp01_le_one (x : ℚ) : clamp01 x ≤ 1 := by
  unfold clamp01
  exact max_le (by norm_num) (min_le_left 1 x)

lemma effectivePostFlip_le_one (cfg : PCConfig) (hpf : cfg.postFlipConf ≤ 1) :
    effectivePostFlip cfg ≤ 1 := by
  unfold effectivePostFlip
  split
  · exact min_le_left 1 _
  · exact hpf

lemma effectivePostFlip_nonneg (cfg : PCConfig) (hthr : 0 < cfg.flipThreshold) :
    0 ≤ effectivePostFlip cfg := by
  unfold effectivePostFlip
  split
  · exact le_min (by norm_num) (by linarith)
  · next h => linarith [lt_of_not_le h]

lemma checkChangePosition_state_cases (cfg : PCConfig) (allowed : List String)
    (fc : Option ℚ) (pc : Option String) (rp : Nat) (p : PState) :
    (checkChangePosition cfg allowed fc pc rp p).1 = p ∨
      ∃ d, fc = some d ∧
        ((checkChangePosition cfg allowed fc pc rp p).1 =
            confUpdate (clamp01 (p.confidenceScore + scaledDelta cfg p.mindset d)) p ∨
          (clamp01 (p.confidenceScore + scaledDelta cfg p.mindset d) < cfg.flipThreshold ∧
            ∃ pos, (checkChangePosition cfg allowed fc pc rp p).1 =
              applyFlip (effectivePostFlip cfg) pos
                (confUpdate (clamp01 (p.confidenceScore + scaledDelta cfg p.mindset d)) p))) := by
  cases fc with
  | none => left; rfl
  | some d =>
    right
    refine ⟨d, rfl, ?_⟩
    by_cases hf : clamp01 (p.confidenceScore + scaledDelta cfg p.mindset d) < cfg.flipThreshold
    · rcases hfil : List.filter
          (fun pos => !decide (pos = currentPosition p)) allowed with
        _ | ⟨alt, _ | ⟨alt2, alts⟩⟩
      · left; simp [checkChangePosition, hf, hfil]
      · refine Or.inr ⟨hf, alt, ?_⟩
        simp [checkChangePosition, hf, hfil]
      · cases pc with
        | none => left; simp [checkChangePosition, hf, hfil]
        | some choiceText =>
          rcases hfind : List.find?
              (fun pos => pyContains (pyLower (pyStrip choiceText)) (pyLower pos))
              (alt :: alt2 :: alts) with _ | pos
          · refine Or.inr ⟨hf, (alt :: alt2 :: alts).getD (rp % (alt :: alt2 :: alts).length) "", ?_⟩
            simp [checkChangePosition, hf, hfil, hfind]
          · refine Or.inr ⟨hf, pos, ?_⟩
            simp [checkChangePosition, hf, hfil, hfind]
    · left; simp [checkChangePosition, hf]

/-- Claim C1: at every modelled point of a participant's life — at profile
generation (`random.uniform(0.6, 1.0)` modelled by `baseProfileConfidence`),
after a round's position-change evaluation, and after any flip reset — the
confidence score lies in `[0, 1]`, and so does every confidence-history entry
appended by the evaluation; in particular the post-round update clamps
`old + scaledDelta` into `[0, 1]` and the post-flip reset stays in `[0, 1]`.
The configured post-flip value is assumed to be a valid confidence
(`≤ 1`), as the spec's notion of a configured post-flip confidence implies;
the bound `0 ≤` needs no assumption, because a flip can only fire when the
flip threshold is positive. -/
theorem C1_confidence_always_in_unit_interval
    (cfg : PCConfig) (allowed : List String) (fc : Option ℚ) (pc : Option String)
    (rp : Nat) (p : PState) (u : ℚ)
    (hpf : cfg.postFlipConf ≤ 1)
    (hp0 : 0 ≤ p.confidenceScore) (hp1 : p.confidenceScore ≤ 1)
    (hhist : ∀ c ∈ p.confidenceHistory, 0 ≤ c ∧ c ≤ 1)
    (hu0 : 0 ≤ u) (hu1 : u ≤ 1) :
    (0 ≤ baseProfileConfidence u ∧ baseProfileConfidence u ≤ 1) ∧
    (0 ≤ ((checkChangePosition cfg allowed fc pc rp p).1).confidenceScore ∧
      ((checkChangePosition cfg allowed fc pc rp p).1).confidenceScore ≤ 1) ∧
    (∀ c ∈ ((checkChangePosition cfg allowed fc pc rp p).1).confidenceHistory,
      0 ≤ c ∧ c ≤ 1) := by
  refine ⟨⟨?_, ?_⟩, ?_⟩
  · unfold baseProfileConfidence; nlinarith
  · unfold baseProfileConfidence; nlinarith
  · rcases checkChangePosition_state_cases cfg allowed fc pc rp p with h | ⟨d, _, h | ⟨hflip, pos, h⟩⟩
    · rw [h]; exact ⟨⟨hp0, hp1⟩, hhist⟩
    · rw [h]
      refine ⟨⟨clamp01_nonneg _, clamp01_le_one _⟩, ?_⟩
      intro c hc
      rcases List.mem_append.1 hc with hc | hc
      · exact hhist c hc
      · rcases List.mem_singleton.1 hc with rfl
        exact ⟨clamp01_nonneg _, clamp01_le_one _⟩
    · have hthr : 0 < cfg.flipThreshold :=
        lt_of_le_of_lt (clamp01_nonneg _) hflip
      rw [h]
      refine ⟨⟨effectivePostFlip_nonneg cfg hthr, effectivePostFlip_le_one cfg hpf⟩, ?_⟩
      intro c hc
      simp only [applyFlip_confidenceHistory, confUpdate_confidenceHistory,
        List.append_assoc, List.mem_append, List.mem_singleton] at hc
      rcases hc with hc | rfl | rfl
      · exact hhist c hc
      · exact ⟨clamp01_nonneg _, clamp01_le_one _⟩
      · exact ⟨effectivePostFlip_nonneg cfg hthr, effectivePostFlip_le_one cfg hpf⟩

/-- Witness for C1: with default configuration, a participant at confidence
0.5 receiving delta −0.5 keeps every confidence value in `[0, 1]`. -/
theorem C1_confidence_always_in_unit_interval_witness :
    (0 ≤ baseProfileConfidence (1 / 2) ∧ baseProfileConfidence (1 / 2) ≤ 1) ∧
    (0 ≤ ((checkChangePosition defaultPCConfig ["A", "B"] (some (-1 / 2)) none 0
        ⟨"p", some "A", none, 1 / 2, [1 / 2], MindsetType.neutral⟩).1).confidenceScore ∧
      ((checkChangePosition defaultPCConfig ["A", "B"] (some (-1 / 2)) none 0
        ⟨"p", some "A", none, 1 / 2, [1 / 2], MindsetType.neutral⟩).1).confidenceScore ≤ 1) ∧
    (∀ c ∈ ((checkChangePosition defaultPCConfig ["A", "B"] (some (-1 / 2)) none 0
        ⟨"p", some "A", none, 1 / 2, [1 / 2], MindsetType.neutral⟩).1).confidenceHistory,
      0 ≤ c ∧ c ≤ 1) :=
  C1_confidence_always_in_unit_interval defaultPCConfig ["A", "B"] (some (-1 / 2)) none 0
    ⟨"p", some "A", none, 1 / 2, [1 / 2], MindsetType.neutral⟩ (1 / 2)
    (by norm_num [defaultPCConfig]) (by norm_num) (by norm_num)
    (by intro c hc; simp only [List.mem_singleton] at hc; subst hc; norm_num)
    (by norm_num) (by norm_num)

/-- Claim C5: when the post-update confidence falls below the flip threshold
and exactly one alternative allowed position exists, the participant flips to
that alternative deterministically — the result does not depend on the
position-pick oracle `pc` nor on the random fallback `rp` (both are
universally quantified and absent from the right-hand side) — the flip sets
`final_position`, resets confidence to the post-flip value, appends that
reset as a second history entry (after the clamped update entry), and
`_check_positions` appends a `position_changes` entry recording the
participant name, prior position, new position and round number. -/
theorem C5_deterministic_flip_single_alternative
    (cfg : PCConfig) (allowed : List String) (d : ℚ) (roundNum : Nat)
    (p : PState) (log : List PositionChangeEntry) (alt : String)
    (pc : Option String) (rp : Nat)
    (hflip : clamp01 (p.confidenceScore + scaledDelta cfg p.mindset d) < cfg.flipThreshold)
    (halt : allowed.filter (fun pos => pos ≠ currentPosition p) = [alt]) :
    checkPositionsOne cfg allowed (some d) pc rp roundNum p log =
      ({ p with
          finalPosition := some alt,
          confidenceScore := effectivePostFlip cfg,
          confidenceHistory := p.confidenceHistory ++
            [clamp01 (p.confidenceScore + scaledDelta cfg p.mindset d),
              effectivePostFlip cfg] },
        log ++ [⟨p.name, currentPosition p, alt, roundNum⟩]) := by
  have hfil : List.filter (fun pos => !decide (pos = currentPosition p)) allowed = [alt] := by
    simpa using halt
  have hstep : checkChangePosition cfg allowed (some d) pc rp p =
      (applyFlip (effectivePostFlip cfg) alt
        (confUpdate (clamp01 (p.confidenceScore + scaledDelta cfg p.mindset d)) p),
        ⟨true, alt⟩) := by
    simp [checkChangePosition, hflip, hfil]
  simp [checkPositionsOne, hstep, applyFlip, confUpdate]

/-- Witness for C5: a two-position debate with default configuration; a delta
of −0.5 collapses a 0.5 confidence to 0 < 0.3, and the participant arguing
"A" flips deterministically to "B" with confidence reset to 0.6. -/
theorem C5_deterministic_flip_single_alternative_witness :
    checkPositionsOne defaultPCConfig ["A", "B"] (some (-1 / 2)) none 0 3
      ⟨"p", some "A", none, 1 / 2, [1 / 2], MindsetType.neutral⟩ [] =
      (⟨"p", some "A", some "B", 6 / 10, [1 / 2, 0, 6 / 10], MindsetType.neutral⟩,
        [⟨"p", "A", "B", 3⟩]) := by
  have h := C5_deterministic_flip_single_alternative defaultPCConfig ["A", "B"] (-1 / 2) 3
    ⟨"p", some "A", none, 1 / 2, [1 / 2], MindsetType.neutral⟩ [] "B" none 0
    (by norm_num [clamp01, scaledDelta, mindsetModifier, defaultPCConfig])
    (by simp [currentPosition, pyTruthy])
  rw [h]
  norm_num [effectivePostFlip, defaultPCConfig, clamp01, scaledDelta, mindsetModifier,
    currentPosition, pyTruthy]
  exact fun hAe => absurd hAe (by decide)

/-! ## Moderator Policy (claims C4 and C10)

`resolveDecision` translates the post-parse pipeline of
`Moderator.decide_intervention` (the sequence of downgrade `if`s, the `LIMIT`
penalty, and the small-roster veto guard).  The parsed action and the parsed
message are its inputs; capability flags mirror the four `allowed_to_*`
fields of `Moderator`.  `hasLastSpeakerObj` is whether `last_speaker_obj` is
not `None` (always true in the reachable calls, since a `SYSTEM` last speaker
returns early, but kept for fidelity to the `and last_speaker_obj` guard). -/

inductive ModeratorAction
  | NONE
  | INTERVENE
  | SKIP
  | VETO
  | STOP
  | SANCTION
  | LIMIT
  deriving DecidableEq

structure ModeratorFlags where
  allowedToIntervene : Bool
  allowedToSkipTurn : Bool
  allowedToStopDebate : Bool
  allowedToVeto : Bool
  deriving DecidableEq

structure ResolvedDecision where
  action : ModeratorAction
  target : String
  message : String
  newLimit : Option Nat
  deriving DecidableEq

def resolveDecision (m : ModeratorFlags) (activeParticipantsCount globalMaxLetters : Nat)
    (lastSpeakerName nextSpeakerName : String) (hasLastSpeakerObj : Bool)
    (parsedAction : ModeratorAction) (message : String) : ResolvedDecision :=
  let target0 := lastSpeakerName
  let a1 := if parsedAction = ModeratorAction.VETO ∧ ¬ m.allowedToVeto then
      ModeratorAction.SANCTION else parsedAction
  let a2 := if a1 = ModeratorAction.SANCTION ∧ ¬ m.allowedToSkipTurn then
      ModeratorAction.INTERVENE else a1
  let at3 : ModeratorAction × String :=
    if a2 = ModeratorAction.SKIP then
      ((if ¬ m.allowedToSkipTurn then ModeratorAction.INTERVENE else a2), nextSpeakerName)
    else (a2, target0)
  let a4 := if at3.1 = ModeratorAction.STOP ∧ ¬ m.allowedToStopDebate then
      ModeratorAction.INTERVENE else at3.1
  let a5 := if a4 = ModeratorAction.INTERVENE ∧ ¬ m.allowedToIntervene then
      ModeratorAction.NONE else a4
  let ml : String × Option Nat :=
    if a5 = ModeratorAction.LIMIT ∧ hasLastSpeakerObj then
      (message ++ " [PENALTY: Next turn limited to " ++
          toString (max 500 (globalMaxLetters / 2)) ++ " chars]",
        some (max 500 (globalMaxLetters / 2)))
    else (message, none)
  let am : ModeratorAction × String :=
    if a5 = ModeratorAction.VETO ∧ activeParticipantsCount ≤ 2 then
      (ModeratorAction.INTERVENE, "[I wanted to ban you, but we need people] " ++ ml.1)
    else (a5, ml.1)
  ⟨am.1, at3.2, am.2, ml.2⟩

/-- The downgrade chain as the claim states it (a second definition written
from the claim's wording, to compare against `resolveDecision`): an action
downgraded to `INTERVENE` falls further to `NONE` when intervening is
disallowed. -/
def downgradeIntervene (m : ModeratorFlags) : ModeratorAction :=
  if ¬ m.allowedToIntervene then ModeratorAction.NONE else ModeratorAction.INTERVENE

/-- The claim's fixed-order chain: `VETO`→`SANCTION` (veto disallowed),
`SANCTION`→`INTERVENE` (skip-turn disallowed), `SKIP`→`INTERVENE` (skipping
disallowed), `STOP`→`INTERVENE` (stopping disallowed), `INTERVENE`→`NONE`
(intervening disallowed). -/
def downgradeChainSpec (m : ModeratorFlags) : ModeratorAction → ModeratorAction
  | ModeratorAction.VETO =>
    if ¬ m.allowedToVeto then
      (if ¬ m.allowedToSkipTurn then downgradeIntervene m else ModeratorAction.SANCTION)
    else ModeratorAction.VETO
  | ModeratorAction.SANCTION =>
    if ¬ m.allowedToSkipTurn then downgradeIntervene m else ModeratorAction.SANCTION
  | ModeratorAction.SKIP =>
    if ¬ m.allowedToSkipTurn then downgradeIntervene m else ModeratorAction.SKIP
  | ModeratorAction.STOP =>
    if ¬ m.allowedToStopDebate then downgradeIntervene m else ModeratorAction.STOP
  | ModeratorAction.INTERVENE => downgradeIntervene m
  | ModeratorAction.NONE => ModeratorAction.NONE
  | ModeratorAction.LIMIT => ModeratorAction.LIMIT

/-- Claim C4: the Moderator Policy's resolved action equals the claim's fixed
downgrade chain, followed by the small-roster veto guard (`VETO` with at most
2 active participants is forced to `INTERVENE`); the resolved target is the
last speaker for every parsed action except `SKIP`, which targets the next
speaker; and whenever the guard fires, the disclaimer is prepended to the
message. -/
theorem C4_downgrade_chain_and_targets (m : ModeratorFlags)
    (active g : Nat) (last next : String) (hasObj : Bool)
    (parsed : ModeratorAction) (msg : String) :
    ((resolveDecision m active g last next hasObj parsed msg).action =
        (if downgradeChainSpec m parsed = ModeratorAction.VETO ∧ active ≤ 2 then
          ModeratorAction.INTERVENE else downgradeChainSpec m parsed)) ∧
    ((resolveDecision m active g last next hasObj parsed msg).target =
        (if parsed = ModeratorAction.SKIP then next else last)) ∧
    (downgradeChainSpec m parsed = ModeratorAction.VETO → active ≤ 2 →
      (resolveDecision m active g last next hasObj parsed msg).message =
        "[I wanted to ban you, but we need people] " ++ msg) := by
  rcases m with ⟨i, sk, st, v⟩
  cases parsed <;> cases i <;> cases sk <;> cases st <;> cases v <;>
    by_cases h : active ≤ 2 <;>
    simp [resolveDecision, downgradeChainSpec, downgradeIntervene, h]

/-- Witness for C4: a fully-enabled moderator deciding `VETO` with exactly 2
active participants ends up intervening against the last speaker with the
disclaimer prepended. -/
theorem C4_downgrade_chain_and_targets_witness :
    (resolveDecision ⟨true, true, true, true⟩ 2 1000 "Bob" "Carol" true
        ModeratorAction.VETO "calm down").action = ModeratorAction.INTERVENE ∧
    (resolveDecision ⟨true, true, true, true⟩ 2 1000 "Bob" "Carol" true
        ModeratorAction.VETO "calm down").target = "Bob" ∧
    (resolveDecision ⟨true, true, true, true⟩ 2 1000 "Bob" "Carol" true
        ModeratorAction.VETO "calm down").message =
      "[I wanted to ban you, but we need people] calm down" := by
  have h := C4_downgrade_chain_and_targets ⟨true, true, true, true⟩ 2 1000 "Bob" "Carol" true
    ModeratorAction.VETO "calm down"
  refine ⟨?_, ?_, ?_⟩
  · rw [h.1]; simp [downgradeChainSpec]
  · rw [h.2.1]; simp
  · have hm := h.2.2 (by simp [downgradeChainSpec]) (by norm_num)
    rw [hm]; rfl

/-! ## Orchestrator SKIP handling (claim C10) -/

/-- The `Debater` state fields touched by the orchestrator's moderator-action
block. -/
structure DebaterSt where
  name : String
  isVetoed : Bool
  strikes : Nat
  skipNextTurn : Bool
  nextTurnCharLimit : Option Nat
  deriving DecidableEq

/-- `next((x for x in self.participants if x.name == target), None)`. -/
def firstWithName (participants : List DebaterSt) (target : String) : Option DebaterSt :=
  participants.find? (fun x => x.name = target)

/-- The observable effect of the `action == ModeratorAction.SKIP` block of
`run_generator`. -/
inductive SkipOutcome
  | systemSkipLine (text : String)
  | markSkipNext (targetName : String)
  | noTarget
  deriving DecidableEq

/-- The `if action == ModeratorAction.SKIP and target_p:` block of
`run_generator`: emit a system skip line when the resolved target is the
current speaker (pydantic `==` is field equality, modelled by structure
equality), otherwise set `skip_next_turn` on the target; no effect when no
participant carries the target name. -/
def applySkipAction (participants : List DebaterSt) (current : DebaterSt)
    (target : String) : SkipOutcome :=
  match firstWithName participants target with
  | none => SkipOutcome.noTarget
  | some targetP =>
    if targetP = current then
      SkipOutcome.systemSkipLine ("[SYSTEM] " ++ current.name ++ " SKIPPED by Moderator.")
    else SkipOutcome.markSkipNext targetP.name

lemma firstWithName_self (participants : List DebaterSt) (p : DebaterSt)
    (hnodup : (participants.map DebaterSt.name).Nodup) (hmem : p ∈ participants) :
    firstWithName participants p.name = some p := by
  induction participants with
  | nil => cases hmem
  | cons q rest ih =>
    rcases List.mem_cons.1 hmem with rfl | hmem2
    · simp [firstWithName]
    · by_cases hq : q.name = p.name
      · exfalso
        have : p.name ∈ rest.map DebaterSt.name := List.mem_map_of_mem _ hmem2
        rw [List.map_cons, List.nodup_cons] at hnodup
        exact hnodup.1 (hq ▸ this)
      · have := ih (by rw [List.map_cons, List.nodup_cons] at hnodup; exact hnodup.2) hmem2
        simpa [firstWithName, hq] using this

/-- Claim C10: the orchestrator consults the moderator with the participant
about to speak as `next_speaker`; since a parsed `SKIP` resolves its target
to that next speaker's name, under unique participant names every `SKIP`
lands on the current speaker: the system skip line is emitted and the branch
marking `skip_next_turn` on a different participant is never taken. -/
theorem C10_skip_resolves_to_current_speaker (m : ModeratorFlags)
    (active g : Nat) (last : String) (hasObj : Bool) (msg : String)
    (participants : List DebaterSt) (p : DebaterSt)
    (hnodup : (participants.map DebaterSt.name).Nodup) (hmem : p ∈ participants) :
    applySkipAction participants p
        ((resolveDecision m active g last p.name hasObj ModeratorAction.SKIP msg).target) =
      SkipOutcome.systemSkipLine ("[SYSTEM] " ++ p.name ++ " SKIPPED by Moderator.") ∧
    ∀ t, applySkipAction participants p
        ((resolveDecision m active g last p.name hasObj ModeratorAction.SKIP msg).target) ≠
      SkipOutcome.markSkipNext t := by
  have htarget : (resolveDecision m active g last p.name hasObj ModeratorAction.SKIP msg).target
      = p.name := by
    simp [resolveDecision]
  rw [htarget]
  have happ : applySkipAction participants p p.name =
      SkipOutcome.systemSkipLine ("[SYSTEM] " ++ p.name ++ " SKIPPED by Moderator.") := by
    unfold applySkipAction
    rw [firstWithName_self participants p hnodup hmem]
    simp
  exact ⟨happ, fun t => by rw [happ]; exact fun hcontra => SkipOutcome.noConfusion hcontra⟩

/-- Witness for C10: a two-debater roster with distinct names; a `SKIP`
decided while Alice is about to speak resolves onto Alice herself. -/
theorem C10_skip_resolves_to_current_speaker_witness :
    applySkipAction [⟨"Alice", false, 0, false, none⟩, ⟨"Bob", false, 0, false, none⟩]
        ⟨"Alice", false, 0, false, none⟩
        ((resolveDecision ⟨true, true, true, true⟩ 2 1000 "Bob" "Alice" true
            ModeratorAction.SKIP "go").target) =
      SkipOutcome.systemSkipLine "[SYSTEM] Alice SKIPPED by Moderator." ∧
    ∀ t, applySkipAction [⟨"Alice", false, 0, false, none⟩, ⟨"Bob", false, 0, false, none⟩]
        ⟨"Alice", false, 0, false, none⟩
        ((resolveDecision ⟨true, true, true, true⟩ 2 1000 "Bob" "Alice" true
            ModeratorAction.SKIP "go").target) ≠
      SkipOutcome.markSkipNext t := by
  have h := C10_skip_resolves_to_current_speaker ⟨true, true, true, true⟩ 2 1000 "Bob" true "go"
    [⟨"Alice", false, 0, false, none⟩, ⟨"Bob", false, 0, false, none⟩]
    ⟨"Alice", false, 0, false, none⟩ (by simp) (by simp)
  simpa using h

/-! ## Outcome Aggregator (claim C2)

`Debate._evaluate` loops over non-vetoed participants; each one's
`evaluate_debate_performance` either returns a parsed JSON dict — with
`winner` defaulted to `None` and `scores` to `{}` when those keys are
missing — or `{}` when the call raised or the JSON was unparseable.
`RawEval` is that dict; a `VoterInput.raw` of `none` is the `{}` case, which
`rawOf` maps to the all-default dict.  The loop body appends independently to
`votes`, `best_id_votes`, `worst_id_votes` and `participant_scores`, so each
accumulator is modelled as its own map/filter over the voters. -/

structure RawEval where
  winner : Option String
  bestTurn : Option Int
  worstTurn : Option Int
  scores : List (String × ℚ)
  deriving DecidableEq

structure VoterInput where
  name : String
  isVetoed : Bool
  raw : Option RawEval
  deriving DecidableEq

/-- The `{}` fallback after key-defaulting: `winner` is `None`, `scores` `{}`. -/
def emptyRawEval : RawEval :=
  ⟨none, none, none, []⟩

def rawOf (v : VoterInput) : RawEval :=
  v.raw.getD emptyRawEval

/-- `if p_score.winner:` — Python truthiness drops both `None` and `""`. -/
def truthyWinner : Option String → Option String
  | some w => if w = "" then none else some w
  | none => none

/-- `isinstance(idx, int) and 0 <= idx < len(eval_history)`: an in-range index
is kept, anything else is discarded. -/
def inRangeIdx (historyLen : Nat) : Option Int → Option Nat
  | some idx => if 0 ≤ idx ∧ idx < historyLen then some idx.toNat else none
  | none => none

/-- The `if not p.is_vetoed` guard of the voting loop. -/
def activeVoters (voters : List VoterInput) : List VoterInput :=
  voters.filter (fun v => !v.isVetoed)

/-- The `votes` accumulator. -/
def votesOf (voters : List VoterInput) : List String :=
  (activeVoters voters).filterMap (fun v => truthyWinner (rawOf v).winner)

/-- The `best_id_votes` accumulator. -/
def bestIdVotes (historyLen : Nat) (voters : List VoterInput) : List Nat :=
  (activeVoters voters).filterMap (fun v => inRangeIdx historyLen (rawOf v).bestTurn)

/-- The `worst_id_votes` accumulator. -/
def worstIdVotes (historyLen : Nat) (voters : List VoterInput) : List Nat :=
  (activeVoters voters).filterMap (fun v => inRangeIdx historyLen (rawOf v).worstTurn)

/-- `Counter(votes).most_common(1)[0][0]`: a `Counter` iterates its keys in
first-insertion order and `most_common` selects stably among equal counts, so
the result is the first vote whose total count in `votes` is maximal (and
`most_common(1)` on an empty counter would fault, guarded by `if votes:` in
the source — here the empty case is simply `none`). -/
def counterMostCommon (votes : List String) : Option String :=
  votes.find? (fun v => votes.all (fun u => votes.count u ≤ votes.count v))

/-- The consensus `winner_name` of the `global_outcome`. -/
def consensusWinner (voters : List VoterInput) : Option String :=
  counterMostCommon (votesOf voters)

lemma exists_max_image {α : Type} (f : α → Nat) :
    ∀ (l : List α), l ≠ [] → ∃ v ∈ l, ∀ u ∈ l, f u ≤ f v := by
  intro l
  induction l with
  | nil => intro h; exact absurd rfl h
  | cons a t ih =>
    intro _
    rcases eq_or_ne t [] with rfl | hne
    · exact ⟨a, List.mem_cons_self a [], by intro u hu; simp at hu; subst hu; exact le_refl _⟩
    · rcases ih hne with ⟨v, hv, hmax⟩
      rcases le_total (f v) (f a) with hle | hle
      · refine ⟨a, List.mem_cons_self a t, ?_⟩
        intro u hu
        rcases List.mem_cons.1 hu with rfl | hu2
        · exact le_refl _
        · exact le_trans (hmax u hu2) hle
      · refine ⟨v, List.mem_cons_of_mem a hv, ?_⟩
        intro u hu
        rcases List.mem_cons.1 hu with rfl | hu2
        · exact hle
        · exact hmax u hu2

lemma find?_indexOf_min {α : Type} [DecidableEq α] (p : α → Bool) :
    ∀ (l : List α) (w : α), l.find? p = some w →
      ∀ v ∈ l, p v = true → l.indexOf w ≤ l.indexOf v := by
  intro l
  induction l with
  | nil => intro w hw; cases hw
  | cons a t ih =>
    intro w hw v hv hpv
    by_cases hpa : p a = true
    · rw [List.find?_cons_of_pos _ hpa] at hw
      injection hw with hw
      subst hw
      simp [List.indexOf_cons_self]
    · rw [List.find?_cons_of_neg _ (by simpa using hpa)] at hw
      have hwt : w ∈ t := List.mem_of_find?_eq_some hw
      have hpw : p w = true := List.find?_some hw
      have hwa : w ≠ a := fun hcontra => hpa (hcontra ▸ hpw)
      have hva : v ≠ a := fun hcontra => hpa (hcontra ▸ hpv)
      have hvt : v ∈ t := by
        rcases List.mem_cons.1 hv with rfl | hv2
        · exact absurd rfl hva
        · exact hv2
      have := ih w hw v hvt hpv
      rw [List.indexOf_cons_ne t (Ne.symm hwa), List.indexOf_cons_ne t (Ne.symm hva)]
      exact Nat.succ_le_succ this

/-- Claim C2: the Outcome Aggregator's consensus winner is the most-voted
winner name among the non-vetoed voters' parsed judgments with ties broken in
favour of the name first encountered in vote order (formalised by: the winner
is a vote, its count dominates every vote's count, and its first occurrence
precedes that of any other maximal-count vote); a voter whose judgment is
unparseable (`raw = none`, the `{}` fallback) contributes no vote and is
dropped from the tally without error (inserting such a voter anywhere leaves
the vote list unchanged); a winner exists whenever any vote was cast; and
every retained best-turn or worst-turn index is inside `[0, historyLen)`. -/
theorem C2_consensus_winner_and_vote_tally (historyLen : Nat)
    (voters voters1 voters2 : List VoterInput) (badName : String) :
    (votesOf (voters1 ++ ⟨badName, false, none⟩ :: voters2) = votesOf (voters1 ++ voters2)) ∧
    (∀ w, consensusWinner voters = some w →
      w ∈ votesOf voters ∧
      (∀ v ∈ votesOf voters, (votesOf voters).count v ≤ (votesOf voters).count w) ∧
      (∀ v ∈ votesOf voters,
        (∀ u ∈ votesOf voters, (votesOf voters).count u ≤ (votesOf voters).count v) →
        (votesOf voters).indexOf w ≤ (votesOf voters).indexOf v)) ∧
    (votesOf voters ≠ [] → ∃ w, consensusWinner voters = some w) ∧
    (∀ i ∈ bestIdVotes historyLen voters, i < historyLen) ∧
    (∀ i ∈ worstIdVotes historyLen voters, i < historyLen) := by
  refine ⟨?_, ?_, ?_, ?_, ?_⟩
  · simp [votesOf, activeVoters, rawOf, emptyRawEval, truthyWinner,
      List.filter_append, List.filterMap_append]
  · intro w hw
    have hfind : (votesOf voters).find?
        (fun v => (votesOf voters).all (fun u => (votesOf voters).count u ≤ (votesOf voters).count v))
        = some w := hw
    have hmem : w ∈ votesOf voters := List.mem_of_find?_eq_some hfind
    have hpw := List.find?_some hfind
    rw [List.all_eq_true] at hpw
    refine ⟨hmem, ?_, ?_⟩
    · intro v hv
      simpa using hpw v hv
    · intro v hv hvmax
      refine find?_indexOf_min _ (votesOf voters) w hfind v hv ?_
      rw [List.all_eq_true]
      intro u hu
      simpa using hvmax u hu
  · intro hne
    rcases exists_max_image (fun v => (votesOf voters).count v) (votesOf voters) hne with
      ⟨v, hv, hmax⟩
    have hsome : ((votesOf voters).find?
        (fun x => (votesOf voters).all
          (fun u => (votesOf voters).count u ≤ (votesOf voters).count x))).isSome := by
      rw [List.find?_isSome]
      exact ⟨v, hv, by rw [List.all_eq_true]; intro u hu; simpa using hmax u hu⟩
    rcases Option.isSome_iff_exists.1 hsome with ⟨w, hwv⟩
    exact ⟨w, hwv⟩
  · intro i hi
    rcases List.mem_filterMap.1 hi with ⟨v, _, hv⟩
    rcases hraw : (rawOf v).bestTurn with _ | idx
    · rw [hraw] at hv; simp [inRangeIdx] at hv
    · rw [hraw] at hv
      simp only [inRangeIdx] at hv
      split_ifs at hv with hb
      injection hv with hv
      subst hv
      omega
  · intro i hi
    rcases List.mem_filterMap.1 hi with ⟨v, _, hv⟩
    rcases hraw : (rawOf v).worstTurn with _ | idx
    · rw [hraw] at hv; simp [inRangeIdx] at hv
    · rw [hraw] at hv
      simp only [inRangeIdx] at hv
      split_ifs at hv with hb
      injection hv with hv
      subst hv
      omega

/-- Concrete voters for the C2 witness: two votes for "X", one for "Y", plus
an unparseable judgment; best/worst indices 5 and −1 are out of range for a
2-entry history. -/
def c2VoterX1 : VoterInput :=
  ⟨"P1", false, some ⟨some "X", some 0, some 5, []⟩⟩

def c2VoterX2 : VoterInput :=
  ⟨"P2", false, some ⟨some "X", none, none, []⟩⟩

def c2VoterY : VoterInput :=
  ⟨"P3", false, some ⟨some "Y", some (-1), some 1, []⟩⟩

/-- Witness for C2: votes {"X","X","Y"} resolve winner "X"; the unparseable
voter "P4" changes nothing; out-of-range turn indices are discarded. -/
theorem C2_consensus_winner_and_vote_tally_witness :
    (votesOf ([c2VoterX1, c2VoterX2] ++ ⟨"P4", false, none⟩ :: [c2VoterY]) =
      votesOf ([c2VoterX1, c2VoterX2] ++ [c2VoterY])) ∧
    votesOf [c2VoterX1, c2VoterX2, c2VoterY] = ["X", "X", "Y"] ∧
    consensusWinner [c2VoterX1, c2VoterX2, c2VoterY] = some "X" ∧
    ("X" ∈ votesOf [c2VoterX1, c2VoterX2, c2VoterY] ∧
      ∀ v ∈ votesOf [c2VoterX1, c2VoterX2, c2VoterY],
        (votesOf [c2VoterX1, c2VoterX2, c2VoterY]).count v ≤
          (votesOf [c2VoterX1, c2VoterX2, c2VoterY]).count "X") ∧
    bestIdVotes 2 [c2VoterX1, c2VoterX2, c2VoterY] = [0] ∧
    worstIdVotes 2 [c2VoterX1, c2VoterX2, c2VoterY] = [1] := by
  have h := C2_consensus_winner_and_vote_tally 2 [c2VoterX1, c2VoterX2, c2VoterY]
    [c2VoterX1, c2VoterX2] [c2VoterY] "P4"
  have h2 := h.2.1 "X" (by decide)
  exact ⟨h.1, by decide, by decide, ⟨h2.1, h2.2.1⟩, by decide, by decide⟩

/-! ## History compression (claims C3 and C9) -/

/-- An `Intervention` as the compression and transcript logic sees it: the
speaker (`none` is the System / a summary record), the text, and the position
snapshot.  Token counts and cost are not read by the modelled control
paths. -/
structure Interv where
  participantName : Option String
  answer : String
  snapshotPosition : String
  deriving DecidableEq

/-- The synthetic summary record built on a successful compression call. -/
def summaryIntervention (summary : String) : Interv :=
  ⟨none, "[PREVIOUS SUMMARY]: " ++ summary, "System"⟩

/-- `Debate._summarize_history`, acting on the live `interventions` list.
`providerCalls` models the available provider candidates and the outcome of
each one's summarization call (`none` is a raised exception); the loop keeps
the first success (`providerCalls.findSome? id`) and replaces the live list
with `[summary] + interventions[-5:]`; `interventions[-5:]` is
`drop (length - 5)`.  No providers, or all candidates failing, leaves the
list untouched. -/
def summarizeHistory (limit : Nat) (providerCalls : List (Option String))
    (interventions : List Interv) : List Interv :=
  if interventions.length ≤ limit then interventions
  else if providerCalls = [] then interventions
  else
    match providerCalls.findSome? id with
    | some summary => summaryIntervention summary :: interventions.drop (interventions.length - 5)
    | none => interventions

/-- The two transcript fields of `Debate`: the live (compressible)
`interventions` and the persisted `full_transcript`. -/
structure HistState where
  interventions : List Interv
  fullTranscript : List Interv
  deriving DecidableEq

/-- `Debate._record_intervention`: append to both lists. -/
def recordIntervention (iv : Interv) (st : HistState) : HistState :=
  ⟨st.interventions ++ [iv], st.fullTranscript ++ [iv]⟩

/-- `Debate._summarize_history` at the state level: the method reads and
assigns only `self.interventions`. -/
def summarizeHistoryState (limit : Nat) (providerCalls : List (Option String))
    (st : HistState) : HistState :=
  { st with interventions := summarizeHistory limit providerCalls st.interventions }

/-- Counterexample to C3 as stated: with threshold 4 and a 5-entry live
transcript, a successful compression produces 6 entries — compression can
increase the transcript's size for thresholds below 5, so "for every
threshold value, compression never increases the live transcript's size" is
false on the code. -/
theorem C3_counterexample_small_threshold_grows :
    (summarizeHistory 4 [some "s"]
        [⟨none, "a", "S"⟩, ⟨none, "b", "S"⟩, ⟨none, "c", "S"⟩,
          ⟨none, "d", "S"⟩, ⟨none, "e", "S"⟩]).length = 6 ∧
    ¬ ((summarizeHistory 4 [some "s"]
        [⟨none, "a", "S"⟩, ⟨none, "b", "S"⟩, ⟨none, "c", "S"⟩,
          ⟨none, "d", "S"⟩, ⟨none, "e", "S"⟩]).length ≤
      ([⟨none, "a", "S"⟩, ⟨none, "b", "S"⟩, ⟨none, "c", "S"⟩,
          ⟨none, "d", "S"⟩, ⟨none, "e", "S"⟩] : List Interv).length) := by
  decide

/-- Claim C3 (amended): when compression runs on a live transcript longer
than the threshold and a summarization call succeeds, the result is exactly
the summary record followed by the 5 most recent original entries in their
original order (a suffix of the original list); its length is
`1 + min 5 original.length` — hence exactly 6 for a 12-entry transcript with
threshold 10 — and compression never increases the transcript's size for any
threshold of at least 5 (the counterexample above forces this bound; the
source's default threshold is 10). -/
theorem C3_history_compression_shape (limit : Nat) (calls : List (Option String))
    (ivs : List Interv) (s : String)
    (hs : calls.findSome? id = some s) (hlen : limit < ivs.length) :
    summarizeHistory limit calls ivs =
      summaryIntervention s :: ivs.drop (ivs.length - 5) ∧
    (summarizeHistory limit calls ivs).tail <:+ ivs ∧
    (summarizeHistory limit calls ivs).length = 1 + min 5 ivs.length ∧
    (5 ≤ limit → (summarizeHistory limit calls ivs).length ≤ ivs.length) := by
  have hcalls : calls ≠ [] := by
    intro hc
    rw [hc] at hs
    simp [List.findSome?] at hs
  have heq : summarizeHistory limit calls ivs =
      summaryIntervention s :: ivs.drop (ivs.length - 5) := by
    unfold summarizeHistory
    rw [if_neg (not_le.2 hlen), if_neg hcalls, hs]
  have hlength : (summarizeHistory limit calls ivs).length = 1 + min 5 ivs.length := by
    rw [heq]
    simp [List.length_drop]
    omega
  refine ⟨heq, ?_, hlength, ?_⟩
  · rw [heq]
    exact List.drop_suffix _ _
  · intro h5
    rw [hlength]
    omega

/-- Witness for C3 (amended): a 12-entry transcript with the default
threshold 10 compresses to exactly 6 entries: the summary followed by the
last 5 entries in order. -/
theorem C3_history_compression_shape_witness :
    summarizeHistory 10 [none, some "sum"]
        ((List.range 12).map fun n => ⟨none, toString n, "S"⟩) =
      summaryIntervention "sum" ::
        (((List.range 12).map fun n => (⟨none, toString n, "S"⟩ : Interv)).drop 7) ∧
    (summarizeHistory 10 [none, some "sum"]
        ((List.range 12).map fun n => ⟨none, toString n, "S"⟩)).length = 6 := by
  have h := C3_history_compression_shape 10 [none, some "sum"]
    ((List.range 12).map fun n => ⟨none, toString n, "S"⟩) "sum"
    (by decide) (by simp)
  refine ⟨?_, ?_⟩
  · have := h.1
    simpa using this
  · rw [h.2.2.1]
    simp

/-- Claim C9: history compression never modifies `full_transcript` — the
method assigns only the live `interventions` list, while recording an
intervention appends to both lists — and when every provider candidate's
summarization call fails, the live interventions list is left exactly as it
was (a graceful no-op, not an error). -/
theorem C9_compression_preserves_full_transcript (limit : Nat)
    (calls : List (Option String)) (st : HistState) :
    (summarizeHistoryState limit calls st).fullTranscript = st.fullTranscript ∧
    ((∀ c ∈ calls, c = none) →
      (summarizeHistoryState limit calls st).interventions = st.interventions) ∧
    (∀ iv, (recordIntervention iv st).interventions = st.interventions ++ [iv] ∧
      (recordIntervention iv st).fullTranscript = st.fullTranscript ++ [iv]) := by
  refine ⟨rfl, ?_, fun iv => ⟨rfl, rfl⟩⟩
  intro hall
  have hnone : calls.findSome? id = none := by
    rw [List.findSome?_eq_none_iff]
    intro o ho
    exact hall o ho
  unfold summarizeHistoryState summarizeHistory
  split
  · rfl
  · split
    · rfl
    · rw [hnone]

/-- Witness for C9: two failed provider candidates on a 3-entry transcript
above threshold 1 leave both lists unchanged. -/
theorem C9_compression_preserves_full_transcript_witness :
    (summarizeHistoryState 1 [none, none]
        ⟨[⟨none, "a", "S"⟩, ⟨none, "b", "S"⟩, ⟨none, "c", "S"⟩],
          [⟨none, "a", "S"⟩, ⟨none, "b", "S"⟩, ⟨none, "c", "S"⟩]⟩).fullTranscript =
      [⟨none, "a", "S"⟩, ⟨none, "b", "S"⟩, ⟨none, "c", "S"⟩] ∧
    (summarizeHistoryState 1 [none, none]
        ⟨[⟨none, "a", "S"⟩, ⟨none, "b", "S"⟩, ⟨none, "c", "S"⟩],
          [⟨none, "a", "S"⟩, ⟨none, "b", "S"⟩, ⟨none, "c", "S"⟩]⟩).interventions =
      [⟨none, "a", "S"⟩, ⟨none, "b", "S"⟩, ⟨none, "c", "S"⟩] := by
  have h := C9_compression_preserves_full_transcript 1 [none, none]
    ⟨[⟨none, "a", "S"⟩, ⟨none, "b", "S"⟩, ⟨none, "c", "S"⟩],
      [⟨none, "a", "S"⟩, ⟨none, "b", "S"⟩, ⟨none, "c", "S"⟩]⟩
  exact ⟨h.1, h.2.1 (by decide)⟩

/-! ## One-shot character-limit override (claim C6) -/

/-- `Participant.answer`: `effective_limit = self.next_turn_char_limit if
self.next_turn_char_limit is not None else max_letters`. -/
def effectiveCharLimit (nextTurnCharLimit : Option Nat) (maxLetters : Nat) : Nat :=
  match nextTurnCharLimit with
  | some l => l
  | none => maxLetters

/-- The override handling in `run_generator`'s turn body: on the success path
(after `p.answer` returned and the intervention was recorded) the code runs
`if p.next_turn_char_limit: p.next_turn_char_limit = None` — a truthiness
test, hence the `l ≠ 0` guard; when `p.answer` raises, the `except` handler
logs and `continue`s without touching the field. -/
def overrideAfterTurn (generationSucceeded : Bool)
    (nextTurnCharLimit : Option Nat) : Option Nat :=
  if generationSucceeded then
    match nextTurnCharLimit with
    | some l => if l ≠ 0 then none else some l
    | none => none
  else nextTurnCharLimit

/-- Counterexample to C6 as stated: when generation fails, the one-shot
override is NOT cleared — the `except` branch `continue`s before the
clearing statement — so "the override is cleared after the speaker's turn in
every case" is false on the code. -/
theorem C6_counterexample_override_survives_failure :
    overrideAfterTurn false (some 500) = some 500 ∧
    overrideAfterTurn false (some 500) ≠ none := by
  decide

/-- Claim C6 (amended): the effective character limit is the one-shot
override when set, else the global per-turn limit; after a successful turn
any nonzero override is cleared — and every override the moderator's `LIMIT`
action can install is nonzero, being `max(500, global // 2)` — but after a
failed turn the override is retained unchanged (the counterexample above
forces this change: the source clears it only on the success path). -/
theorem C6_effective_limit_and_clearing (maxLetters l : Nat) (o : Option Nat) :
    effectiveCharLimit (some l) maxLetters = l ∧
    effectiveCharLimit none maxLetters = maxLetters ∧
    (l ≠ 0 → overrideAfterTurn true (some l) = none) ∧
    overrideAfterTurn false o = o ∧
    (∀ m active g last next hasObj parsed msg nl,
      (resolveDecision m active g last next hasObj parsed msg).newLimit = some nl →
      overrideAfterTurn true (some nl) = none) := by
  refine ⟨rfl, rfl, ?_, rfl, ?_⟩
  · intro hl
    simp [overrideAfterTurn, hl]
  · intro m active g last next hasObj parsed msg nl hnl
    have hge : 500 ≤ nl := by
      unfold resolveDecision at hnl
      simp only at hnl
      split_ifs at hnl <;> simp_all <;> omega
    have : nl ≠ 0 := by omega
    simp [overrideAfterTurn, this]

/-- Witness for C6 (amended): an override of 700 applies instead of the
global 1500 and is cleared on success but retained on failure; a `LIMIT`
action with global limit 1500 installs 750, which the success path clears. -/
theorem C6_effective_limit_and_clearing_witness :
    effectiveCharLimit (some 700) 1500 = 700 ∧
    effectiveCharLimit none 1500 = 1500 ∧
    overrideAfterTurn true (some 700) = none ∧
    overrideAfterTurn false (some 700) = some 700 ∧
    (resolveDecision ⟨true, true, true, true⟩ 3 1500 "Bob" "Carol" true
        ModeratorAction.LIMIT "too long").newLimit = some 750 ∧
    overrideAfterTurn true (some 750) = none := by
  have h := C6_effective_limit_and_clearing 1500 700 (some 700)
  refine ⟨h.1, h.2.1, h.2.2.1 (by decide), h.2.2.2.1, by decide, ?_⟩
  exact h.2.2.2.2 ⟨true, true, true, true⟩ 3 1500 "Bob" "Carol" true
    ModeratorAction.LIMIT "too long" 750 (by decide)

/-! ## Answer extraction (claim C7) -/

lemma pySplitAux_ne_nil (sep : List Char) (fuel : Nat) :
    ∀ (s : List Char), pySplitAux sep fuel s ≠ [] := by
  induction fuel with
  | zero => intro s; simp [pySplitAux]
  | succ n ih =>
    intro s
    unfold pySplitAux
    split
    · simp
    · cases s with
      | nil => simp
      | cons c rest =>
        rcases h : pySplitAux sep n rest with _ | ⟨t, ts⟩
        · exact absurd h (ih rest)
        · simp [h]

lemma pySplitAux_joinWith (sep : List Char) :
    ∀ (fuel : Nat) (s : List Char), s.length < fuel →
      joinWith sep (pySplitAux sep fuel s) = s := by
  intro fuel
  induction fuel with
  | zero => intro s h; exact absurd h (Nat.not_lt_zero _)
  | succ n ih =>
    intro s hlen
    unfold pySplitAux
    split
    · next hpre =>
      have hsep1 : 1 ≤ sep.length := by
        rcases sep with _ | ⟨a, tl⟩
        · exact absurd rfl hpre.1
        · simp
      have hslen : sep.length ≤ s.length := (List.isPrefixOf_iff_prefix.1 hpre.2).length_le
      have hdrop := ih (s.drop sep.length) (by rw [List.length_drop]; omega)
      rcases hne : pySplitAux sep n (s.drop sep.length) with _ | ⟨t, ts⟩
      · exact absurd hne (pySplitAux_ne_nil sep n _)
      · rw [hne] at hdrop
        rcases (List.isPrefixOf_iff_prefix.1 hpre.2) with ⟨tail, rfl⟩
        rw [List.drop_left] at hdrop
        simp [joinWith, hdrop]
    · next hnpre =>
      cases s with
      | nil => rfl
      | cons c rest =>
        have hr := ih rest (by simpa using Nat.lt_of_succ_lt_succ hlen)
        rcases h : pySplitAux sep n rest with _ | ⟨t, ts⟩
        · exact absurd h (pySplitAux_ne_nil sep n rest)
        · rw [h] at hr
          cases ts with
          | nil =>
            have hr2 : t = rest := by simpa [joinWith] using hr
            simp [h, joinWith, hr2]
          | cons t2 ts2 =>
            simp only [h]
            simp only [joinWith] at hr
            simp [joinWith, ← hr]

lemma pyStripList_of_all_space (l : List Char)
    (h : ∀ c ∈ l, pyIsSpace c = true) : pyStripList l = [] := by
  unfold pyStripList
  have h1 : l.dropWhile pyIsSpace = [] := List.dropWhile_eq_nil_iff.2 (fun c hc => h c hc)
  rw [h1]
  rfl

lemma mem_pyStripList_of_not_space (c : Char) (l : List Char)
    (hc : pyIsSpace c = false) (hmem : c ∈ l) : c ∈ pyStripList l := by
  have step : ∀ (m : List Char), c ∈ m → c ∈ m.dropWhile pyIsSpace := by
    intro m hm
    have hsplit := List.takeWhile_append_dropWhile (p := pyIsSpace) (l := m)
    rw [← hsplit] at hm
    rcases List.mem_append.1 hm with htk | hdw
    · exact absurd (List.mem_takeWhile_imp htk) (by simp [hc])
    · exact hdw
  unfold pyStripList
  rw [List.mem_reverse]
  exact step _ (by rw [List.mem_reverse]; exact step _ hmem)

lemma pyStrip_ne_empty_of_ne_empty (s : String) (h : pyStrip s ≠ "") :
    pyStrip (pyStrip s) ≠ "" := by
  have hdata : pyStripList s.data ≠ [] := by
    intro hcontra
    exact h (congrArg String.mk hcontra)
  have hex : ∃ c ∈ s.data, pyIsSpace c = false := by
    by_contra hall
    push_neg at hall
    exact hdata (pyStripList_of_all_space s.data (fun c hc => by
      have := hall c hc
      revert this
      cases pyIsSpace c <;> simp))
  rcases hex with ⟨c, hcmem, hcns⟩
  have h1 : c ∈ pyStripList s.data := mem_pyStripList_of_not_space c s.data hcns hcmem
  have h2 : c ∈ pyStripList (pyStripList s.data) :=
    mem_pyStripList_of_not_space c (pyStripList s.data) hcns h1
  intro hcontra
  have : pyStripList (pyStripList s.data) = [] := congrArg String.data hcontra
  rw [this] at h2
  cases h2

lemma pyStrip_append_not_space_head (c : Char) (t : String) (hc : pyIsSpace c = false) :
    pyStrip ⟨c :: t.data⟩ ≠ "" := by
  intro hcontra
  have hmem : c ∈ pyStripList (c :: t.data) :=
    mem_pyStripList_of_not_space c (c :: t.data) hc (List.mem_cons_self c t.data)
  have : pyStripList (c :: t.data) = [] := congrArg String.data hcontra
  rw [this] at hmem
  cases hmem

lemma pySplit_two_parts (sep s p0 p1 : String)
    (h : pySplit sep s = [p0, p1]) : s.data = p0.data ++ sep.data ++ p1.data := by
  have hl : pySplitList sep.data s.data = [p0.data, p1.data] := by
    unfold pySplit at h
    rcases hll : pySplitList sep.data s.data with _ | ⟨a, _ | ⟨b, _ | ⟨c, tl⟩⟩⟩ <;>
      rw [hll] at h <;> simp at h
    rcases h with ⟨h1, h2⟩
    rw [← h1, ← h2]
  have hjoin := pySplitAux_joinWith sep.data (s.data.length + 1) s.data (Nat.lt_succ_self _)
  rw [show pySplitAux sep.data (s.data.length + 1) s.data = pySplitList sep.data s.data from rfl,
    hl] at hjoin
  rw [← hjoin]
  simp [joinWith]

/-- `RoleType` (`debates/enums/role_type.py`). -/
inductive RoleType
  | EXPERT
  | SCHOLAR
  | GENERAL_KNOWLEDGE
  | ILLITERATE
  deriving DecidableEq

/-- `use_cot = self.role in [RoleType.EXPERT, RoleType.SCHOLAR]`. -/
def useCot (r : RoleType) : Bool :=
  r = RoleType.EXPERT || r = RoleType.SCHOLAR

def responseMarker : String :=
  "RESPONSE:"

def thoughtsMarker : String :=
  "THOUGHTS:"

def silencePlaceholder : String :=
  "(...remains silent and contemplative...)"

def internalMonologuePrefix : String :=
  "[Internal Monologue]: "

/-- The answer post-processing of `Participant.answer`: for structured
(chain-of-thought) roles with a `RESPONSE:` marker in the raw text, split at
the marker; the recorded answer is the stripped second part when non-empty,
else the `[Internal Monologue]` fallback built from the first part with
`THOUGHTS:` removed and stripped; without the marker (or for plain roles) the
raw text is kept; a blank final answer becomes the silence placeholder.  (The
`p0 :: p1 :: _` pattern is Python's `parts[0]`/`parts[1]`; fewer than two
parts cannot happen under the `in` guard.) -/
def extractFinalAnswer (role : RoleType) (responseText : String) : String :=
  let fa :=
    if useCot role && pyContains responseText responseMarker then
      match pySplit responseMarker responseText with
      | p0 :: p1 :: _ =>
        if pyStrip p1 ≠ "" then pyStrip p1
        else internalMonologuePrefix ++ pyStrip (pyReplace p0 thoughtsMarker "")
      | _ => responseText
    else responseText
  if pyStrip fa = "" then silencePlaceholder else fa

lemma pyStrip_monologue_ne_empty (y : String) :
    pyStrip (internalMonologuePrefix ++ y) ≠ "" := by
  have hform : internalMonologuePrefix ++ y =
      ⟨'[' :: (("Internal Monologue]: " : String).data ++ y.data)⟩ := rfl
  rw [hform]
  exact pyStrip_append_not_space_head '['
    ⟨("Internal Monologue]: " : String).data ++ y.data⟩ (by decide)

/-- Counterexample to C7 as stated: for a structured-reasoning role, when the
`RESPONSE:` segment is present but empty, the recorded answer is NOT the raw
generated text — the code records `"[Internal Monologue]: "` followed by the
cleaned `THOUGHTS` segment instead. -/
theorem C7_counterexample_empty_segment_not_raw :
    extractFinalAnswer RoleType.EXPERT "THOUGHTS: abc RESPONSE: " =
      "[Internal Monologue]: abc" ∧
    extractFinalAnswer RoleType.EXPERT "THOUGHTS: abc RESPONSE: " ≠
      "THOUGHTS: abc RESPONSE: " := by
  constructor
  · rfl
  · decide

/-- Claim C7 (amended): for a structured-reasoning role — writing `p0`,`p1`
for the first two `RESPONSE:`-split parts, which rejoin as
`raw = p0 ++ "RESPONSE:" ++ p1` when they are the only two — the recorded
answer is the stripped text after the marker when present and non-blank; the
raw text when the marker is absent (and the raw text is non-blank); the
`[Internal Monologue]` fallback built from the `THOUGHTS` segment — not the
raw text, as the counterexample forces — when the marker is present but the
segment after it is blank; and the fixed silence placeholder when the whole
output is empty. -/
theorem C7_structured_answer_extraction (role : RoleType) (raw p0 p1 : String)
    (rest : List String) (hcot : useCot role = true) :
    (pySplit responseMarker raw = [p0, p1] →
      raw.data = p0.data ++ responseMarker.data ++ p1.data) ∧
    (pyContains raw responseMarker = true →
      pySplit responseMarker raw = p0 :: p1 :: rest →
      pyStrip p1 ≠ "" →
      extractFinalAnswer role raw = pyStrip p1) ∧
    (pyContains raw responseMarker = false →
      extractFinalAnswer role raw =
        (if pyStrip raw = "" then silencePlaceholder else raw)) ∧
    (pyContains raw responseMarker = true →
      pySplit responseMarker raw = p0 :: p1 :: rest →
      pyStrip p1 = "" →
      extractFinalAnswer role raw =
        internalMonologuePrefix ++ pyStrip (pyReplace p0 thoughtsMarker "")) ∧
    extractFinalAnswer role "" = silencePlaceholder := by
  refine ⟨?_, ?_, ?_, ?_, ?_⟩
  · intro hsplit
    exact pySplit_two_parts responseMarker raw p0 p1 hsplit
  · intro hcontain hsplit hne
    have hfinal := pyStrip_ne_empty_of_ne_empty p1 hne
    simp [extractFinalAnswer, hcot, hcontain, hsplit, hne, hfinal]
  · intro hcontain
    simp [extractFinalAnswer, hcontain]
  · intro hcontain hsplit hempty
    have hfinal := pyStrip_monologue_ne_empty (pyStrip (pyReplace p0 thoughtsMarker ""))
    simp [extractFinalAnswer, hcot, hcontain, hsplit, hempty, hfinal]
  · cases role <;> simp_all [useCot] <;> rfl

/-- Witness for C7 (amended): a CoT answer with a non-empty response segment
records the stripped text after the marker; a marker-less answer is recorded
raw; an empty output records the silence placeholder; and the two split
parts rejoin around the marker. -/
theorem C7_structured_answer_extraction_witness :
    extractFinalAnswer RoleType.EXPERT "THOUGHTS: t RESPONSE: Hello Bob" = "Hello Bob" ∧
    extractFinalAnswer RoleType.SCHOLAR "No marker here" = "No marker here" ∧
    extractFinalAnswer RoleType.EXPERT "" = silencePlaceholder ∧
    ("THOUGHTS: t RESPONSE: Hello Bob" : String).data =
      ("THOUGHTS: t " : String).data ++ responseMarker.data ++
        (" Hello Bob" : String).data := by
  have h := C7_structured_answer_extraction RoleType.EXPERT
    "THOUGHTS: t RESPONSE: Hello Bob" "THOUGHTS: t " " Hello Bob" [] (by decide)
  have h2 := C7_structured_answer_extraction RoleType.SCHOLAR
    "No marker here" "" "" [] (by decide)
  refine ⟨?_, ?_, h.2.2.2.2, h.1 (by decide)⟩
  · have hb := h.2.1 (by decide) (by decide) (by decide)
    rw [hb]
    rfl
  · have hc := h2.2.2.1 (by decide)
    rw [hc]
    decide

/-! ## Step driver (claim C8)

`Debate.run_generator` is a Python generator: it yields a finite sequence of
events and then returns, after which every further `next()` raises
`StopIteration`.  `Debate.step` lazily creates the generator on first call
and maps `StopIteration` to `None`.  The state is `none` before the first
`step` call and `some remaining` afterwards, where `remaining` are the
not-yet-yielded events; an exhausted generator is `some []` and stays so. -/

def stepDebate {α : Type} (events : List α) :
    Option (List α) → Option α × Option (List α)
  | none =>
    match events with
    | [] => (none, some [])
    | e :: rest => (some e, some rest)
  | some [] => (none, some [])
  | some (e :: rest) => (some e, some rest)

/-- The results of `n` consecutive `step` calls from a given driver state. -/
def stepTrace {α : Type} (events : List α) : Nat → Option (List α) → List (Option α)
  | 0, _ => []
  | n + 1, st =>
    (stepDebate events st).1 :: stepTrace events n (stepDebate events st).2

/-- Claim C8: a fresh debate stepped `events.length + n` times yields every
event exactly once, in order, and then `null` on every one of the `n`
subsequent calls — repeated calls after completion are error-free no-ops
producing no further events, with the driver state pinned at the exhausted
generator. -/
theorem C8_step_after_done_returns_null {α : Type} (events : List α) (n : Nat) :
    stepTrace events (events.length + n) none =
      events.map some ++ List.replicate n none ∧
    stepTrace events n (some []) = List.replicate n none ∧
    (stepDebate events (some [])).1 = none ∧
    (stepDebate events (some [])).2 = some [] := by
  have hexhaust : ∀ (m : Nat), stepTrace events m (some []) = List.replicate m none := by
    intro m
    induction m with
    | zero => rfl
    | succ k ih => simp [stepTrace, stepDebate, ih, List.replicate_succ]
  refine ⟨?_, hexhaust n, rfl, rfl⟩
  have hrun : ∀ (l : List α) (m : Nat), stepTrace events m (some l) =
      (l.map some ++ List.replicate (m - l.length) none).take m := by
    intro l
    induction l with
    | nil =>
      intro m
      simp only [List.map_nil, List.nil_append, List.length_nil, Nat.sub_zero]
      rw [hexhaust m, List.take_of_length_le (by simp [List.length_replicate])]
    | cons e rest ih =>
      intro m
      cases m with
      | zero => rfl
      | succ k =>
        simp [stepTrace, stepDebate, ih k, List.take_succ_cons, Nat.succ_sub_succ]
  cases events with
  | nil =>
    cases n with
    | zero => rfl
    | succ k => simp [stepTrace, stepDebate, hexhaust k, List.replicate_succ]
  | cons e rest =>
    have hcount : (e :: rest).length + n = (rest.length + n) + 1 := by
      simp
      omega
    rw [hcount]
    have hstep : stepTrace (e :: rest) ((rest.length + n) + 1) none =
        (some e) :: stepTrace (e :: rest) (rest.length + n) (some rest) := by
      simp [stepTrace, stepDebate]
    rw [hstep, hrun rest (rest.length + n)]
    simp [List.take_of_length_le]
